import Mathlib

/-!
Shallow embedding of the binary-tree node primitive from `src/src/lib.rs`
(and its twin `src/base_tree/src/lib.rs`).

A Rust `Node<T>` holds a payload and three optional raw pointers
(`left`, `right`, `parent`).  We model the pointer graph as a heap:
a partial map from addresses (`Nat`) to node records.  Every mutation
through a pointer becomes an explicit heap update, performed in the
same order as the source code performs its writes.
-/

namespace BinTree

/-- One vertex: payload plus the three optional neighbour links, exactly the
fields of the Rust struct `Node<T>` (links are addresses instead of
`NonNull` pointers). -/
structure Node (T : Type) where
  data : T
  left : Option Nat
  right : Option Nat
  parent : Option Nat
deriving DecidableEq

/-- Which child slot an operation works on; `replace_left` and
`replace_right` differ only in this. -/
inductive Side where
  | l
  | r
deriving DecidableEq

variable {T : Type}

/-- Read the slot selected by a side. -/
def Node.child (n : Node T) : Side → Option Nat
  | .l => n.left
  | .r => n.right

/-- Write the slot selected by a side. -/
def Node.setChild (n : Node T) : Side → Option Nat → Node T
  | .l, c => { n with left := c }
  | .r, c => { n with right := c }

/-- The `ptr.parent = None` write done through a child pointer
(the `remove_parent` closure in `split_mut`, and the first half of
`replace_child_helper`). -/
def clearParent (n : Node T) : Node T := { n with parent := none }

/-- The `nc.parent = Some(parent)` write of `replace_child_helper`. -/
def withParent (p : Nat) (n : Node T) : Node T := { n with parent := some p }

/-- The mirror image of a side. -/
def Side.other : Side → Side
  | .l => .r
  | .r => .l

/-- The heap: which node record lives at which address.  `none` means the
address is not an allocated node. -/
def Heap (T : Type) : Type := Nat → Option (Node T)

/-- Mutate the node stored at address `i` in place (a write through a
pointer to `i`); other addresses are untouched. -/
def modifyNode (h : Heap T) (i : Nat) (f : Node T → Node T) : Heap T :=
  fun j => if j = i then (h j).map f else h j

/-- `Node::new`: a detached node, all three links empty. -/
def Node.new (data : T) : Node T :=
  { data := data, parent := none, left := none, right := none }

/-- `Node::get`: read the payload. -/
def Node.get (n : Node T) : T := n.data

/-- The `*node.get_mut() = v` assignment: write the payload through
`get_mut`, touching nothing else. -/
def write_data (h : Heap T) (i : Nat) (v : T) : Heap T :=
  modifyNode h i fun n => { n with data := v }

/-- Clearing the parent link of the old occupant (the
`old_child_ref.take().map(...)` step), when there was one. -/
def clearOldParent (h : Heap T) : Option Nat → Heap T
  | some oc => modifyNode h oc clearParent
  | none => h

/-- Setting the parent link of the supplied new child (the
`new_child.map(|nc| nc.parent = Some(parent))` step), when one was given. -/
def setNewParent (h : Heap T) : Option Nat → Nat → Heap T
  | some nc, p => modifyNode h nc (withParent p)
  | none, _ => h

/-- `Node::replace_child_helper` on the node at `p`, slot `s`:
take the slot (read the old occupant, empty the slot), clear the old
occupant's parent link, set the new child's parent link to `p`, then store
the new child in the slot.  Returns the updated heap and the old occupant,
in the exact write order of the source. -/
def replace_child_helper (h : Heap T) (p : Nat) (s : Side) (new_child : Option Nat) :
    Heap T × Option Nat :=
  match h p with
  | none => (h, none)
  | some n =>
      let old_child := n.child s
      let h1 := modifyNode h p fun m => m.setChild s none
      let h2 := clearOldParent h1 old_child
      let h3 := setNewParent h2 new_child p
      let h4 := modifyNode h3 p fun m => m.setChild s new_child
      (h4, old_child)

/-- `Node::replace_left`. -/
def replace_left (h : Heap T) (p : Nat) (new_child : Option Nat) : Heap T × Option Nat :=
  replace_child_helper h p .l new_child

/-- `Node::replace_right`. -/
def replace_right (h : Heap T) (p : Nat) (new_child : Option Nat) : Heap T × Option Nat :=
  replace_child_helper h p .r new_child

/-- `Node::left`: the address behind the reference the accessor returns,
when the link is set. -/
def left (h : Heap T) (i : Nat) : Option Nat := (h i).bind Node.left

/-- `Node::right`. -/
def right (h : Heap T) (i : Nat) : Option Nat := (h i).bind Node.right

/-- `Node::parent`. -/
def parent (h : Heap T) (i : Nat) : Option Nat := (h i).bind Node.parent

/-- `Node::left_mut`: same link read as `left`, the result is handed out
mutably. -/
def left_mut (h : Heap T) (i : Nat) : Option Nat := (h i).bind Node.left

/-- `Node::right_mut`. -/
def right_mut (h : Heap T) (i : Nat) : Option Nat := (h i).bind Node.right

/-- `Node::parent_mut`. -/
def parent_mut (h : Heap T) (i : Nat) : Option Nat := (h i).bind Node.parent

/-- `Node::split_mut` on the node at `i`: take the left slot and clear the
left child's parent, then take the right slot (read after the left phase,
as the source does) and clear the right child's parent.  Returns the
updated heap and the returned triple (left root, the node itself, right
root). -/
def split_mut (h : Heap T) (i : Nat) : Heap T × (Option Nat × Nat × Option Nat) :=
  match h i with
  | none => (h, (none, i, none))
  | some n =>
      let l := n.left
      let h1 := modifyNode h i fun m => { m with left := none }
      let h2 := clearOldParent h1 l
      let r := (h2 i).bind Node.right
      let h3 := modifyNode h2 i fun m => { m with right := none }
      let h4 := clearOldParent h3 r
      (h4, (l, i, r))

/-!
The twin implementation from `src/base_tree/src/lib.rs`, translated
independently.  The struct is field-for-field the same, so the `Node`
record type is shared; every operation is re-translated below.
-/

namespace Base

/-- `base_tree`: `Node::new`. -/
def node_new (data : T) : Node T :=
  { data := data, parent := none, left := none, right := none }

/-- `base_tree`: `Node::get`. -/
def node_get (n : Node T) : T := n.data

/-- `base_tree`: payload write through `get_mut`. -/
def write_data (h : Heap T) (i : Nat) (v : T) : Heap T :=
  modifyNode h i fun n => { n with data := v }

/-- `base_tree`: `Node::replace_child_helper` (the only textual difference
from the primary file is `Some(parent)` in place of `Some(parent.into())`,
the same pointer value). -/
def replace_child_helper (h : Heap T) (p : Nat) (s : Side) (new_child : Option Nat) :
    Heap T × Option Nat :=
  match h p with
  | none => (h, none)
  | some n =>
      let old_child := n.child s
      let h1 := modifyNode h p fun m => m.setChild s none
      let h2 := clearOldParent h1 old_child
      let h3 := setNewParent h2 new_child p
      let h4 := modifyNode h3 p fun m => m.setChild s new_child
      (h4, old_child)

/-- `base_tree`: `Node::replace_left`. -/
def replace_left (h : Heap T) (p : Nat) (new_child : Option Nat) : Heap T × Option Nat :=
  Base.replace_child_helper h p .l new_child

/-- `base_tree`: `Node::replace_right`. -/
def replace_right (h : Heap T) (p : Nat) (new_child : Option Nat) : Heap T × Option Nat :=
  Base.replace_child_helper h p .r new_child

/-- `base_tree`: `Node::left`. -/
def left (h : Heap T) (i : Nat) : Option Nat := (h i).bind Node.left

/-- `base_tree`: `Node::right`. -/
def right (h : Heap T) (i : Nat) : Option Nat := (h i).bind Node.right

/-- `base_tree`: `Node::parent`. -/
def parent (h : Heap T) (i : Nat) : Option Nat := (h i).bind Node.parent

/-- `base_tree`: `Node::left_mut`. -/
def left_mut (h : Heap T) (i : Nat) : Option Nat := (h i).bind Node.left

/-- `base_tree`: `Node::right_mut`. -/
def right_mut (h : Heap T) (i : Nat) : Option Nat := (h i).bind Node.right

/-- `base_tree`: `Node::parent_mut`. -/
def parent_mut (h : Heap T) (i : Nat) : Option Nat := (h i).bind Node.parent

/-- `base_tree`: `Node::split_mut`. -/
def split_mut (h : Heap T) (i : Nat) : Heap T × (Option Nat × Nat × Option Nat) :=
  match h i with
  | none => (h, (none, i, none))
  | some n =>
      let l := n.left
      let h1 := modifyNode h i fun m => { m with left := none }
      let h2 := clearOldParent h1 l
      let r := (h2 i).bind Node.right
      let h3 := modifyNode h2 i fun m => { m with right := none }
      let h4 := clearOldParent h3 r
      (h4, (l, i, r))

end Base

/-!
The link invariants of the spec, and a small step system describing
"any sequence of mutating calls that respects the caller obligations",
used to state invariant preservation.
-/

/-- Invariant I1 of the spec: every child link is mirrored by a parent
link, and every parent link is mirrored by a child link. -/
def Sym (h : Heap T) : Prop :=
  (∀ p n c, h p = some n → (n.left = some c ∨ n.right = some c) →
      ∃ m, h c = some m ∧ m.parent = some p) ∧
  (∀ c m p, h c = some m → m.parent = some p →
      ∃ n, h p = some n ∧ (n.left = some c ∨ n.right = some c))

/-- No node is its own left or right child.  Holds for every heap built by
obligation-respecting calls, and is needed to carry `Sym` across them. -/
def NoSelfChild (h : Heap T) : Prop :=
  ∀ p n s, h p = some n → n.child s ≠ some p

/-- The two child slots of a node never hold the same address.  Also
maintained by obligation-respecting call sequences. -/
def DistinctSlots (h : Heap T) : Prop :=
  ∀ p n s c, h p = some n → n.child s = some c → n.child s.other ≠ some c

/-- The full inductive invariant carried across operations. -/
def Inv (h : Heap T) : Prop := Sym h ∧ NoSelfChild h ∧ DistinctSlots h

/-- Every allocated node is detached: the starting point "freshly created
nodes" of the spec's lifecycle. -/
def AllDetached (h : Heap T) : Prop :=
  ∀ i n, h i = some n → n.left = none ∧ n.right = none ∧ n.parent = none

/-- One mutating call of the public API (payload writes do not touch
links, so they are irrelevant to the link invariant). -/
inductive Op (T : Type) where
  | alloc (i : Nat) (v : T)
  | repl (p : Nat) (s : Side) (new_child : Option Nat)
  | split (p : Nat)

/-- `Node::new` at a fresh address. -/
def allocNode (h : Heap T) (i : Nat) (v : T) : Heap T :=
  fun j => if j = i then some (Node.new v) else h j

/-- The heap after one call. -/
def applyOp (h : Heap T) : Op T → Heap T
  | .alloc i v => allocNode h i v
  | .repl p s nc => (replace_child_helper h p s nc).1
  | .split p => (split_mut h p).1

/-- The stated caller obligations for one call: the receiver is a live
node, and a supplied new child is a live node that is not already linked
upward and is not the receiver itself.  (These are consequences of the
spec's "detached, not in the reachable neighborhood" obligation.) -/
def okOp (h : Heap T) : Op T → Prop
  | .alloc i _ => h i = none
  | .repl p _ nc =>
      (∃ n, h p = some n) ∧
      ∀ d, nc = some d → d ≠ p ∧ ∃ m, h d = some m ∧ m.parent = none
  | .split p => ∃ n, h p = some n

/-- Run a sequence of calls. -/
def runOps (h : Heap T) : List (Op T) → Heap T
  | [] => h
  | op :: ops => runOps (applyOp h op) ops

/-- Every call of the sequence meets its obligations in the heap it sees. -/
def okTrace (h : Heap T) : List (Op T) → Prop
  | [] => True
  | op :: ops => okOp h op ∧ okTrace (applyOp h op) ops

/-- The net effect of detaching the occupant `c` of slot `s` of node `p`:
empty the slot, clear the occupant's parent link. -/
def detachPair (h : Heap T) (p : Nat) (s : Side) (c : Nat) : Heap T :=
  modifyNode (modifyNode h p fun m => m.setChild s none) c clearParent

/-- The net effect of filling the empty slot `s` of node `p` with `c`:
set the child's parent link, point the slot at the child. -/
def attachPair (h : Heap T) (p : Nat) (s : Side) (c : Nat) : Heap T :=
  modifyNode (modifyNode h c (withParent p)) p fun m => m.setChild s (some c)

/-!
The concrete five-node scenario of the `walk_around` test in
`src/base_tree/src/lib.rs` (claim about the end-to-end behaviour).
-/

/-- Five freshly created nodes with payloads "0".."4" at addresses 0..4. -/
def walkHeap0 : Heap String :=
  fun i =>
    if i = 0 then some (Node.new "0")
    else if i = 1 then some (Node.new "1")
    else if i = 2 then some (Node.new "2")
    else if i = 3 then some (Node.new "3")
    else if i = 4 then some (Node.new "4")
    else none

/-- After `node0.replace_right(node1)`. -/
def walkHeap1 : Heap String := (replace_right walkHeap0 0 (some 1)).1

/-- After `node3.replace_right(node4)`. -/
def walkHeap2 : Heap String := (replace_right walkHeap1 3 (some 4)).1

/-- After `node2.replace_left(node0)`. -/
def walkHeap3 : Heap String := (replace_left walkHeap2 2 (some 0)).1

/-- After `node2.replace_right(node3)`. -/
def walkHeap4 : Heap String := (replace_right walkHeap3 2 (some 3)).1

/-- After `*node0.get_mut() = "10".into()`. -/
def walkHeap5 : Heap String := write_data walkHeap4 0 "10"

/-!
Small concrete heaps used to instantiate the universally quantified
statements on explicit inputs.
-/

/-- The empty heap: no allocated nodes. -/
def emptyHeap (T : Type) : Heap T := fun _ => none

/-- Allocate three nodes and link 1 and 2 under node 0. -/
def buildOps : List (Op Nat) :=
  [.alloc 0 10, .alloc 1 11, .alloc 2 12, .repl 0 .l (some 1), .repl 0 .r (some 2)]

/-- The three-node tree produced by `buildOps`. -/
def builtHeap : Heap Nat := runOps (emptyHeap Nat) buildOps

/-- A five-node heap: node 0 has left child 3 and right child 1;
nodes 2 and 4 are detached. -/
def cHeapA : Heap Nat :=
  fun i =>
    if i = 0 then some { data := 0, left := some 3, right := some 1, parent := none }
    else if i = 1 then some { data := 1, left := none, right := none, parent := some 0 }
    else if i = 3 then some { data := 3, left := none, right := none, parent := some 0 }
    else if i = 2 then some { data := 2, left := none, right := none, parent := none }
    else if i = 4 then some { data := 4, left := none, right := none, parent := none }
    else none

/-!
Component lemmas for node updates and heap modification.
-/

@[simp] theorem clearParent_data (n : Node T) : (clearParent n).data = n.data := rfl

@[simp] theorem clearParent_left (n : Node T) : (clearParent n).left = n.left := rfl

@[simp] theorem clearParent_right (n : Node T) : (clearParent n).right = n.right := rfl

@[simp] theorem clearParent_parent (n : Node T) : (clearParent n).parent = none := rfl

@[simp] theorem clearParent_child (n : Node T) (s : Side) :
    (clearParent n).child s = n.child s := by cases s <;> rfl

@[simp] theorem withParent_data (p : Nat) (n : Node T) : (withParent p n).data = n.data := rfl

@[simp] theorem withParent_left (p : Nat) (n : Node T) : (withParent p n).left = n.left := rfl

@[simp] theorem withParent_right (p : Nat) (n : Node T) : (withParent p n).right = n.right := rfl

@[simp] theorem withParent_parent (p : Nat) (n : Node T) :
    (withParent p n).parent = some p := rfl

@[simp] theorem withParent_child (p : Nat) (n : Node T) (s : Side) :
    (withParent p n).child s = n.child s := by cases s <;> rfl

@[simp] theorem setChild_data (n : Node T) (s : Side) (c : Option Nat) :
    (n.setChild s c).data = n.data := by cases s <;> rfl

@[simp] theorem setChild_parent (n : Node T) (s : Side) (c : Option Nat) :
    (n.setChild s c).parent = n.parent := by cases s <;> rfl

@[simp] theorem child_setChild_same (n : Node T) (s : Side) (c : Option Nat) :
    (n.setChild s c).child s = c := by cases s <;> rfl

@[simp] theorem child_setChild_other (n : Node T) (s : Side) (c : Option Nat) :
    (n.setChild s c).child s.other = n.child s.other := by cases s <;> rfl

@[simp] theorem other_other (s : Side) : s.other.other = s := by cases s <;> rfl

theorem setChild_setChild (n : Node T) (s : Side) (c c' : Option Nat) :
    (n.setChild s c).setChild s c' = n.setChild s c' := by cases s <;> rfl

theorem setChild_self (n : Node T) (s : Side) (h : n.child s = none) :
    n.setChild s none = n := by
  cases s <;> cases n <;> simp_all [Node.child, Node.setChild]

@[simp] theorem setChild_l (n : Node T) (c : Option Nat) :
    n.setChild .l c = { n with left := c } := rfl

@[simp] theorem setChild_r (n : Node T) (c : Option Nat) :
    n.setChild .r c = { n with right := c } := rfl

theorem child_or_iff (n : Node T) (c : Nat) :
    (n.left = some c ∨ n.right = some c) ↔ ∃ s, n.child s = some c := by
  constructor
  · rintro (h | h)
    exacts [⟨.l, h⟩, ⟨.r, h⟩]
  · rintro ⟨s, h⟩
    cases s
    exacts [Or.inl h, Or.inr h]

theorem modifyNode_self (h : Heap T) (i : Nat) (f : Node T → Node T) :
    modifyNode h i f i = (h i).map f := by simp [modifyNode]

theorem modifyNode_ne (h : Heap T) (i : Nat) (f : Node T → Node T) {j : Nat} (hj : j ≠ i) :
    modifyNode h i f j = h j := by simp [modifyNode, hj]

theorem replace_child_helper_some (h : Heap T) {p : Nat} {n : Node T}
    (hp : h p = some n) (s : Side) (nc : Option Nat) :
    replace_child_helper h p s nc =
      (modifyNode
        (setNewParent
          (clearOldParent (modifyNode h p fun m => m.setChild s none) (n.child s)) nc p)
        p (fun m => m.setChild s nc),
       n.child s) := by
  unfold replace_child_helper
  rw [hp]

theorem split_mut_some (h : Heap T) {i : Nat} {n : Node T} (hp : h i = some n) :
    split_mut h i =
      (let h2 := clearOldParent (modifyNode h i fun m => { m with left := none }) n.left
       let r := (h2 i).bind Node.right
       (clearOldParent (modifyNode h2 i fun m => { m with right := none }) r,
        (n.left, i, r))) := by
  unfold split_mut
  rw [hp]

theorem modifyNode_setChild_none_id (h : Heap T) {p : Nat} {n : Node T}
    (hp : h p = some n) (s : Side) (hcs : n.child s = none) :
    (modifyNode h p fun m => m.setChild s none) = h := by
  funext j
  by_cases hj : j = p
  · subst hj
    rw [modifyNode_self, hp, Option.map_some', setChild_self n s hcs]
  · exact modifyNode_ne _ _ _ hj

/-!
Decompositions of the two mutating operations into `detachPair` and
`attachPair` steps, by case on the old occupant and the argument.
-/

theorem replace_some_some_eq (h : Heap T) {p : Nat} {s : Side} (d : Nat) {co : Nat} {n : Node T}
    (hp : h p = some n) (hco : n.child s = some co) :
    replace_child_helper h p s (some d) =
      (attachPair (detachPair h p s co) p s d, some co) := by
  rw [replace_child_helper_some h hp s (some d), hco]
  rfl

theorem replace_none_some_eq (h : Heap T) {p : Nat} {s : Side} (d : Nat) {n : Node T}
    (hp : h p = some n) (hco : n.child s = none) :
    replace_child_helper h p s (some d) = (attachPair h p s d, none) := by
  rw [replace_child_helper_some h hp s (some d), hco]
  simp only [clearOldParent, setNewParent]
  rw [modifyNode_setChild_none_id h hp s hco]
  rfl

theorem replace_some_none_eq (h : Heap T) {p : Nat} {s : Side} {co : Nat} {n : Node T}
    (hp : h p = some n) (hco : n.child s = some co) (hcop : co ≠ p) :
    replace_child_helper h p s none = (detachPair h p s co, some co) := by
  rw [replace_child_helper_some h hp s none, hco]
  simp only [clearOldParent, setNewParent]
  refine congrArg (fun x => (x, some co)) ?_
  funext j
  by_cases hj : j = p
  · subst hj
    rw [modifyNode_self, modifyNode_ne _ _ _ (Ne.symm hcop), modifyNode_self, hp,
      Option.map_some', Option.map_some', setChild_setChild]
    unfold detachPair
    rw [modifyNode_ne _ _ _ (Ne.symm hcop), modifyNode_self, hp, Option.map_some']
  · rw [modifyNode_ne _ _ _ hj]
    rfl

theorem replace_none_none_eq (h : Heap T) {p : Nat} {s : Side} {n : Node T}
    (hp : h p = some n) (hco : n.child s = none) :
    replace_child_helper h p s none = (h, none) := by
  rw [replace_child_helper_some h hp s none, hco]
  simp only [clearOldParent, setNewParent]
  rw [modifyNode_setChild_none_id h hp s hco, modifyNode_setChild_none_id h hp s hco]

theorem split_some_some_eq (h : Heap T) {i l r : Nat} {n : Node T}
    (hp : h i = some n) (hl : n.left = some l) (hli : l ≠ i) (hr : n.right = some r) :
    split_mut h i = (detachPair (detachPair h i .l l) i .r r, (some l, i, some r)) := by
  have e1 := split_mut_some h hp
  rw [hl] at e1
  simp only [clearOldParent] at e1
  rw [modifyNode_ne _ _ _ (Ne.symm hli), modifyNode_self, hp] at e1
  simp only [Option.map_some', Option.some_bind] at e1
  rw [hr] at e1
  simp only [clearOldParent] at e1
  rw [e1]
  rfl

theorem split_some_none_eq (h : Heap T) {i l : Nat} {n : Node T}
    (hp : h i = some n) (hl : n.left = some l) (hli : l ≠ i) (hr : n.right = none) :
    split_mut h i = (detachPair h i .l l, (some l, i, none)) := by
  have e1 := split_mut_some h hp
  rw [hl] at e1
  simp only [clearOldParent] at e1
  rw [modifyNode_ne _ _ _ (Ne.symm hli), modifyNode_self, hp] at e1
  simp only [Option.map_some', Option.some_bind] at e1
  rw [hr] at e1
  simp only [clearOldParent] at e1
  rw [e1]
  have hnode : (modifyNode (modifyNode h i fun (m : Node T) => { m with left := none })
      l clearParent) i = some { n with left := none } := by
    rw [modifyNode_ne _ _ _ (Ne.symm hli), modifyNode_self, hp]
    rfl
  have hrn : ({ n with left := none } : Node T).child .r = none := by
    simp only [Node.child]
    exact hr
  have hfr : (fun (m : Node T) => { m with right := none })
      = fun (m : Node T) => m.setChild .r none := rfl
  rw [hfr, modifyNode_setChild_none_id _ hnode .r hrn]
  rfl

theorem split_none_some_eq (h : Heap T) {i r : Nat} {n : Node T}
    (hp : h i = some n) (hl : n.left = none) (hr : n.right = some r) :
    split_mut h i = (detachPair h i .r r, (none, i, some r)) := by
  have e1 := split_mut_some h hp
  rw [hl] at e1
  simp only [clearOldParent] at e1
  rw [modifyNode_self, hp] at e1
  simp only [Option.map_some', Option.some_bind] at e1
  rw [hr] at e1
  simp only [clearOldParent] at e1
  rw [e1]
  have hfl : (fun (m : Node T) => { m with left := none })
      = fun (m : Node T) => m.setChild .l none := rfl
  rw [hfl, modifyNode_setChild_none_id h hp .l hl]
  rfl

theorem split_none_none_eq (h : Heap T) {i : Nat} {n : Node T}
    (hp : h i = some n) (hl : n.left = none) (hr : n.right = none) :
    split_mut h i = (h, (none, i, none)) := by
  have e1 := split_mut_some h hp
  rw [hl] at e1
  simp only [clearOldParent] at e1
  rw [modifyNode_self, hp] at e1
  simp only [Option.map_some', Option.some_bind] at e1
  rw [hr] at e1
  simp only [clearOldParent] at e1
  rw [e1]
  have hfl : (fun (m : Node T) => { m with left := none })
      = fun (m : Node T) => m.setChild .l none := rfl
  rw [hfl, modifyNode_setChild_none_id h hp .l hl]
  have hfr : (fun (m : Node T) => { m with right := none })
      = fun (m : Node T) => m.setChild .r none := rfl
  rw [hfr, modifyNode_setChild_none_id h hp .r hr]

/-!
Pointwise values of `detachPair` and `attachPair`, and helper views of the
symmetry invariant.
-/

theorem detachPair_at_p (h : Heap T) {p : Nat} {n : Node T} (hp : h p = some n)
    (s : Side) {c : Nat} (hcp : c ≠ p) :
    detachPair h p s c p = some (n.setChild s none) := by
  unfold detachPair
  rw [modifyNode_ne _ _ _ (Ne.symm hcp), modifyNode_self, hp, Option.map_some']

theorem detachPair_at_c (h : Heap T) (p : Nat) (s : Side) {c : Nat} (hcp : c ≠ p) :
    detachPair h p s c c = (h c).map clearParent := by
  unfold detachPair
  rw [modifyNode_self, modifyNode_ne _ _ _ hcp]

theorem detachPair_at_other (h : Heap T) (p : Nat) (s : Side) (c : Nat) {j : Nat}
    (hjp : j ≠ p) (hjc : j ≠ c) :
    detachPair h p s c j = h j := by
  unfold detachPair
  rw [modifyNode_ne _ _ _ hjc, modifyNode_ne _ _ _ hjp]

theorem attachPair_at_p (h : Heap T) {p : Nat} {n : Node T} (hp : h p = some n)
    (s : Side) {c : Nat} (hcp : c ≠ p) :
    attachPair h p s c p = some (n.setChild s (some c)) := by
  unfold attachPair
  rw [modifyNode_self, modifyNode_ne _ _ _ (Ne.symm hcp), hp, Option.map_some']

theorem attachPair_at_c (h : Heap T) (p : Nat) (s : Side) {c : Nat} (hcp : c ≠ p) :
    attachPair h p s c c = (h c).map (withParent p) := by
  unfold attachPair
  rw [modifyNode_ne _ _ _ hcp, modifyNode_self]

theorem attachPair_at_other (h : Heap T) (p : Nat) (s : Side) (c : Nat) {j : Nat}
    (hjp : j ≠ p) (hjc : j ≠ c) :
    attachPair h p s c j = h j := by
  unfold attachPair
  rw [modifyNode_ne _ _ _ hjp, modifyNode_ne _ _ _ hjc]

theorem Side.eq_other_of_ne {s s' : Side} (h : s' ≠ s) : s' = s.other := by
  cases s <;> cases s' <;> simp_all [Side.other]

theorem Sym_of {h : Heap T}
    (fwd : ∀ p n s c, h p = some n → n.child s = some c →
      ∃ m, h c = some m ∧ m.parent = some p)
    (cnv : ∀ c m p, h c = some m → m.parent = some p →
      ∃ n s, h p = some n ∧ n.child s = some c) :
    Sym h := by
  constructor
  · intro p n c hp hor
    obtain ⟨s, hs⟩ := (child_or_iff n c).1 hor
    exact fwd p n s c hp hs
  · intro c m p hc hm
    obtain ⟨n, s, hn, hs⟩ := cnv c m p hc hm
    exact ⟨n, hn, (child_or_iff n c).2 ⟨s, hs⟩⟩

theorem Sym_fwd {h : Heap T} (hs : Sym h) {p : Nat} {n : Node T} {c : Nat}
    (hp : h p = some n) {s : Side} (hc : n.child s = some c) :
    ∃ m, h c = some m ∧ m.parent = some p :=
  hs.1 p n c hp ((child_or_iff n c).2 ⟨s, hc⟩)

theorem Sym_cnv {h : Heap T} (hs : Sym h) {c : Nat} {m : Node T} {p : Nat}
    (hc : h c = some m) (hm : m.parent = some p) :
    ∃ n s, h p = some n ∧ n.child s = some c := by
  obtain ⟨n, hn, hor⟩ := hs.2 c m p hc hm
  obtain ⟨s, hcs⟩ := (child_or_iff n c).1 hor
  exact ⟨n, s, hn, hcs⟩

theorem no_child_of_parentless {h : Heap T} (hs : Sym h) {c : Nat} {m : Node T}
    (hc : h c = some m) (hm : m.parent = none) :
    ∀ p n s, h p = some n → n.child s ≠ some c := by
  intro p n s hp hcs
  obtain ⟨m', hm', hpar⟩ := Sym_fwd hs hp hcs
  rw [hc] at hm'
  cases hm'
  rw [hm] at hpar
  cases hpar

theorem parent_unique {h : Heap T} (hs : Sym h) {p1 p2 : Nat} {n1 n2 : Node T}
    {s1 s2 : Side} {c : Nat} (hp1 : h p1 = some n1) (hc1 : n1.child s1 = some c)
    (hp2 : h p2 = some n2) (hc2 : n2.child s2 = some c) : p1 = p2 := by
  obtain ⟨m, hm, h1⟩ := Sym_fwd hs hp1 hc1
  obtain ⟨m', hm', h2⟩ := Sym_fwd hs hp2 hc2
  rw [hm] at hm'
  cases hm'
  rw [h1] at h2
  exact Option.some_injective _ h2

/-!
Invariant preservation for the two elementary link moves.
-/

theorem inv_detachPair (h : Heap T) {p c : Nat} {s : Side} {n : Node T}
    (hinv : Inv h) (hp : h p = some n) (hcs : n.child s = some c) :
    Inv (detachPair h p s c) := by
  obtain ⟨hsym, hnsc, hds⟩ := hinv
  have hcp : c ≠ p := fun he => hnsc p n s hp (he ▸ hcs)
  obtain ⟨m, hm, hmp⟩ := Sym_fwd hsym hp hcs
  have hp' : detachPair h p s c p = some (n.setChild s none) := detachPair_at_p h hp s hcp
  have hc' : detachPair h p s c c = some (clearParent m) := by
    rw [detachPair_at_c h p s hcp, hm, Option.map_some']
  have hoth : ∀ j, j ≠ p → j ≠ c → detachPair h p s c j = h j := fun j hjp hjc =>
    detachPair_at_other h p s c hjp hjc
  refine ⟨Sym_of ?_ ?_, ?_, ?_⟩
  · -- forward direction: every child link of the new heap is mirrored
    intro q nq s' c' hq hch
    by_cases hqp : q = p
    · subst hqp
      rw [hp'] at hq
      cases hq
      by_cases hss : s' = s
      · subst hss
        rw [child_setChild_same] at hch
        cases hch
      · rw [Side.eq_other_of_ne hss, child_setChild_other] at hch
        have hc'c : c' ≠ c := fun he => hds q n s c hp hcs (he ▸ hch)
        have hc'p : c' ≠ q := fun he => hnsc q n s.other hp (he ▸ hch)
        obtain ⟨m', hm', hpar⟩ := Sym_fwd hsym hp hch
        exact ⟨m', by rw [hoth c' hc'p hc'c]; exact hm', hpar⟩
    · by_cases hqc : q = c
      · subst hqc
        rw [hc'] at hq
        cases hq
        rw [clearParent_child] at hch
        obtain ⟨m', hm', hpar⟩ := Sym_fwd hsym hm hch
        by_cases hc'p : c' = p
        · subst hc'p
          rw [hp] at hm'
          cases hm'
          exact ⟨n.setChild s none, hp', by rw [setChild_parent]; exact hpar⟩
        · have hc'c : c' ≠ q := fun he => hnsc q m s' hm (he ▸ hch)
          exact ⟨m', by rw [hoth c' hc'p hc'c]; exact hm', hpar⟩
      · have hq0 : h q = some nq := by rw [← hoth q hqp hqc]; exact hq
        obtain ⟨m', hm', hpar⟩ := Sym_fwd hsym hq0 hch
        by_cases hc'p : c' = p
        · subst hc'p
          rw [hp] at hm'
          cases hm'
          exact ⟨n.setChild s none, hp', by rw [setChild_parent]; exact hpar⟩
        · by_cases hc'c : c' = c
          · subst hc'c
            rw [hm] at hm'
            cases hm'
            rw [hmp] at hpar
            cases hpar
            exact absurd rfl hqp
          · exact ⟨m', by rw [hoth c' hc'p hc'c]; exact hm', hpar⟩
  · -- converse direction: every parent link of the new heap is mirrored
    intro c' m' q hc'h hm'q
    by_cases hc'p : c' = p
    · subst hc'p
      rw [hp'] at hc'h
      cases hc'h
      rw [setChild_parent] at hm'q
      obtain ⟨nq, s', hnq, hch⟩ := Sym_cnv hsym hp hm'q
      by_cases hqp : q = c'
      · subst hqp
        rw [hp] at hnq
        cases hnq
        exact absurd hch (hnsc q n s' hp)
      · by_cases hqc : q = c
        · subst hqc
          rw [hm] at hnq
          cases hnq
          exact ⟨clearParent m, s', hc', by rw [clearParent_child]; exact hch⟩
        · exact ⟨nq, s', by rw [hoth q hqp hqc]; exact hnq, hch⟩
    · by_cases hc'c : c' = c
      · subst hc'c
        rw [hc'] at hc'h
        cases hc'h
        rw [clearParent_parent] at hm'q
        cases hm'q
      · have hc0 : h c' = some m' := by rw [← hoth c' hc'p hc'c]; exact hc'h
        obtain ⟨nq, s', hnq, hch⟩ := Sym_cnv hsym hc0 hm'q
        by_cases hqp : q = p
        · subst hqp
          rw [hp] at hnq
          cases hnq
          by_cases hss : s' = s
          · subst hss
            rw [hcs] at hch
            cases hch
            exact absurd rfl hc'c
          · refine ⟨n.setChild s none, s.other, hp', ?_⟩
            rw [child_setChild_other, ← Side.eq_other_of_ne hss]
            exact hch
        · by_cases hqc : q = c
          · subst hqc
            rw [hm] at hnq
            cases hnq
            exact ⟨clearParent m, s', hc', by rw [clearParent_child]; exact hch⟩
          · exact ⟨nq, s', by rw [hoth q hqp hqc]; exact hnq, hch⟩
  · -- no self child
    intro q nq s' hq
    by_cases hqp : q = p
    · subst hqp
      rw [hp'] at hq
      cases hq
      by_cases hss : s' = s
      · subst hss
        rw [child_setChild_same]
        exact fun he => by cases he
      · rw [Side.eq_other_of_ne hss, child_setChild_other]
        exact hnsc q n s.other hp
    · by_cases hqc : q = c
      · subst hqc
        rw [hc'] at hq
        cases hq
        rw [clearParent_child]
        exact hnsc q m s' hm
      · have hq0 : h q = some nq := by rw [← hoth q hqp hqc]; exact hq
        exact hnsc q nq s' hq0
  · -- distinct slots
    intro q nq s' c' hq hch
    by_cases hqp : q = p
    · subst hqp
      rw [hp'] at hq
      cases hq
      by_cases hss : s' = s
      · subst hss
        rw [child_setChild_same] at hch
        cases hch
      · rw [Side.eq_other_of_ne hss, child_setChild_other] at hch
        rw [Side.eq_other_of_ne hss, other_other, child_setChild_same]
        exact fun he => by cases he
    · by_cases hqc : q = c
      · subst hqc
        rw [hc'] at hq
        cases hq
        rw [clearParent_child] at hch
        rw [clearParent_child]
        exact hds q m s' c' hm hch
      · have hq0 : h q = some nq := by rw [← hoth q hqp hqc]; exact hq
        exact hds q nq s' c' hq0 hch

theorem inv_attachPair (h : Heap T) {p c : Nat} {s : Side} {n m : Node T}
    (hinv : Inv h) (hp : h p = some n) (hslot : n.child s = none)
    (hc : h c = some m) (hmp : m.parent = none) (hcp : c ≠ p) :
    Inv (attachPair h p s c) := by
  obtain ⟨hsym, hnsc, hds⟩ := hinv
  have hF1 : ∀ q nq s', h q = some nq → nq.child s' ≠ some c :=
    no_child_of_parentless hsym hc hmp
  have hp' : attachPair h p s c p = some (n.setChild s (some c)) := attachPair_at_p h hp s hcp
  have hc' : attachPair h p s c c = some (withParent p m) := by
    rw [attachPair_at_c h p s hcp, hc, Option.map_some']
  have hoth : ∀ j, j ≠ p → j ≠ c → attachPair h p s c j = h j := fun j hjp hjc =>
    attachPair_at_other h p s c hjp hjc
  refine ⟨Sym_of ?_ ?_, ?_, ?_⟩
  · -- forward direction
    intro q nq s' c' hq hch
    by_cases hqp : q = p
    · subst hqp
      rw [hp'] at hq
      cases hq
      by_cases hss : s' = s
      · subst hss
        rw [child_setChild_same] at hch
        cases hch
        exact ⟨withParent q m, hc', withParent_parent q m⟩
      · rw [Side.eq_other_of_ne hss, child_setChild_other] at hch
        have hc'c : c' ≠ c := fun he => hF1 q n s.other hp (he ▸ hch)
        have hc'p : c' ≠ q := fun he => hnsc q n s.other hp (he ▸ hch)
        obtain ⟨m', hm', hpar⟩ := Sym_fwd hsym hp hch
        exact ⟨m', by rw [hoth c' hc'p hc'c]; exact hm', hpar⟩
    · by_cases hqc : q = c
      · subst hqc
        rw [hc'] at hq
        cases hq
        rw [withParent_child] at hch
        obtain ⟨m', hm', hpar⟩ := Sym_fwd hsym hc hch
        by_cases hc'p : c' = p
        · subst hc'p
          rw [hp] at hm'
          cases hm'
          exact ⟨n.setChild s (some q), hp', by rw [setChild_parent]; exact hpar⟩
        · have hc'c : c' ≠ q := fun he => hnsc q m s' hc (he ▸ hch)
          exact ⟨m', by rw [hoth c' hc'p hc'c]; exact hm', hpar⟩
      · have hq0 : h q = some nq := by rw [← hoth q hqp hqc]; exact hq
        obtain ⟨m', hm', hpar⟩ := Sym_fwd hsym hq0 hch
        by_cases hc'p : c' = p
        · subst hc'p
          rw [hp] at hm'
          cases hm'
          exact ⟨n.setChild s (some c), hp', by rw [setChild_parent]; exact hpar⟩
        · by_cases hc'c : c' = c
          · subst hc'c
            exact absurd hch (hF1 q nq s' hq0)
          · exact ⟨m', by rw [hoth c' hc'p hc'c]; exact hm', hpar⟩
  · -- converse direction
    intro c' m' q hc'h hm'q
    by_cases hc'p : c' = p
    · subst hc'p
      rw [hp'] at hc'h
      cases hc'h
      rw [setChild_parent] at hm'q
      obtain ⟨nq, s', hnq, hch⟩ := Sym_cnv hsym hp hm'q
      by_cases hqp : q = c'
      · subst hqp
        rw [hp] at hnq
        cases hnq
        exact absurd hch (hnsc q n s' hp)
      · by_cases hqc : q = c
        · subst hqc
          rw [hc] at hnq
          cases hnq
          exact ⟨withParent c' m, s', hc', by rw [withParent_child]; exact hch⟩
        · exact ⟨nq, s', by rw [hoth q hqp hqc]; exact hnq, hch⟩
    · by_cases hc'c : c' = c
      · subst hc'c
        rw [hc'] at hc'h
        cases hc'h
        rw [withParent_parent] at hm'q
        cases hm'q
        exact ⟨n.setChild s (some c'), s, hp', child_setChild_same n s (some c')⟩
      · have hc0 : h c' = some m' := by rw [← hoth c' hc'p hc'c]; exact hc'h
        obtain ⟨nq, s', hnq, hch⟩ := Sym_cnv hsym hc0 hm'q
        by_cases hqp : q = p
        · subst hqp
          rw [hp] at hnq
          cases hnq
          have hss : s' ≠ s := fun he => by
            rw [he, hslot] at hch
            cases hch
          refine ⟨n.setChild s (some c), s.other, hp', ?_⟩
          rw [child_setChild_other, ← Side.eq_other_of_ne hss]
          exact hch
        · by_cases hqc : q = c
          · subst hqc
            rw [hc] at hnq
            cases hnq
            exact ⟨withParent p m, s', hc', by rw [withParent_child]; exact hch⟩
          · exact ⟨nq, s', by rw [hoth q hqp hqc]; exact hnq, hch⟩
  · -- no self child
    intro q nq s' hq
    by_cases hqp : q = p
    · subst hqp
      rw [hp'] at hq
      cases hq
      by_cases hss : s' = s
      · subst hss
        rw [child_setChild_same]
        exact fun he => hcp (Option.some_injective _ he)
      · rw [Side.eq_other_of_ne hss, child_setChild_other]
        exact hnsc q n s.other hp
    · by_cases hqc : q = c
      · subst hqc
        rw [hc'] at hq
        cases hq
        rw [withParent_child]
        exact hnsc q m s' hc
      · have hq0 : h q = some nq := by rw [← hoth q hqp hqc]; exact hq
        exact hnsc q nq s' hq0
  · -- distinct slots
    intro q nq s' c' hq hch
    by_cases hqp : q = p
    · subst hqp
      rw [hp'] at hq
      cases hq
      by_cases hss : s' = s
      · subst hss
        rw [child_setChild_same] at hch
        cases hch
        rw [child_setChild_other]
        exact hF1 q n s'.other hp
      · rw [Side.eq_other_of_ne hss, child_setChild_other] at hch
        rw [Side.eq_other_of_ne hss, other_other, child_setChild_same]
        intro he
        cases he
        exact hF1 q n s.other hp hch
    · by_cases hqc : q = c
      · subst hqc
        rw [hc'] at hq
        cases hq
        rw [withParent_child] at hch
        rw [withParent_child]
        exact hds q m s' c' hc hch
      · have hq0 : h q = some nq := by rw [← hoth q hqp hqc]; exact hq
        exact hds q nq s' c' hq0 hch

theorem inv_allocNode (h : Heap T) {i : Nat} (v : T) (hinv : Inv h) (hi : h i = none) :
    Inv (allocNode h i v) := by
  obtain ⟨hsym, hnsc, hds⟩ := hinv
  have hat : allocNode h i v i = some (Node.new v) := by simp [allocNode]
  have hoth : ∀ j, j ≠ i → allocNode h i v j = h j := by
    intro j hj
    simp [allocNode, hj]
  have hnew : ∀ s, (Node.new v).child s = none := by
    intro s
    cases s <;> rfl
  refine ⟨Sym_of ?_ ?_, ?_, ?_⟩
  · intro q nq s' c' hq hch
    by_cases hqi : q = i
    · subst hqi
      rw [hat] at hq
      cases hq
      rw [hnew s'] at hch
      cases hch
    · rw [hoth q hqi] at hq
      obtain ⟨m', hm', hpar⟩ := Sym_fwd hsym hq hch
      by_cases hc'i : c' = i
      · subst hc'i
        rw [hi] at hm'
        cases hm'
      · exact ⟨m', by rw [hoth c' hc'i]; exact hm', hpar⟩
  · intro c' m' q hc'h hm'q
    by_cases hc'i : c' = i
    · subst hc'i
      rw [hat] at hc'h
      cases hc'h
      cases hm'q
    · rw [hoth c' hc'i] at hc'h
      obtain ⟨nq, s', hnq, hch⟩ := Sym_cnv hsym hc'h hm'q
      by_cases hqi : q = i
      · subst hqi
        rw [hi] at hnq
        cases hnq
      · exact ⟨nq, s', by rw [hoth q hqi]; exact hnq, hch⟩
  · intro q nq s' hq
    by_cases hqi : q = i
    · subst hqi
      rw [hat] at hq
      cases hq
      rw [hnew s']
      exact fun he => by cases he
    · rw [hoth q hqi] at hq
      exact hnsc q nq s' hq
  · intro q nq s' c' hq hch
    by_cases hqi : q = i
    · subst hqi
      rw [hat] at hq
      cases hq
      rw [hnew s'] at hch
      cases hch
    · rw [hoth q hqi] at hq
      exact hds q nq s' c' hq hch

theorem inv_applyOp (h : Heap T) (op : Op T) (hinv : Inv h) (hok : okOp h op) :
    Inv (applyOp h op) := by
  cases op with
  | alloc i v => exact inv_allocNode h v hinv hok
  | repl p s nc =>
      obtain ⟨⟨n, hp⟩, hnc⟩ := hok
      show Inv (replace_child_helper h p s nc).1
      cases nc with
      | none =>
          cases hco : n.child s with
          | none =>
              rw [replace_none_none_eq h hp hco]
              exact hinv
          | some co =>
              have hcop : co ≠ p := fun he => hinv.2.1 p n s hp (by rw [hco, he])
              rw [replace_some_none_eq h hp hco hcop]
              exact inv_detachPair h hinv hp hco
      | some d =>
          obtain ⟨hdp, m, hd, hmp⟩ := hnc d rfl
          cases hco : n.child s with
          | none =>
              rw [replace_none_some_eq h d hp hco]
              exact inv_attachPair h hinv hp hco hd hmp hdp
          | some co =>
              have hcop : co ≠ p := fun he => hinv.2.1 p n s hp (by rw [hco, he])
              have hdco : d ≠ co := by
                intro he
                exact no_child_of_parentless hinv.1 hd hmp p n s hp (by rw [hco, he])
              rw [replace_some_some_eq h d hp hco]
              have hp2 : detachPair h p s co p = some (n.setChild s none) :=
                detachPair_at_p h hp s hcop
              have hd2 : detachPair h p s co d = some m := by
                rw [detachPair_at_other h p s co hdp hdco]
                exact hd
              exact inv_attachPair (detachPair h p s co) (inv_detachPair h hinv hp hco)
                hp2 (child_setChild_same n s none) hd2 hmp hdp
  | split p =>
      obtain ⟨n, hp⟩ := hok
      show Inv (split_mut h p).1
      cases hl : n.left with
      | none =>
          cases hr : n.right with
          | none =>
              rw [split_none_none_eq h hp hl hr]
              exact hinv
          | some r =>
              have hrp : r ≠ p := fun he => hinv.2.1 p n .r hp (by
                show n.right = some p
                rw [hr, he])
              rw [split_none_some_eq h hp hl hr]
              exact inv_detachPair h hinv hp (show n.child .r = some r from hr)
      | some l =>
          have hlp : l ≠ p := fun he => hinv.2.1 p n .l hp (by
            show n.left = some p
            rw [hl, he])
          cases hr : n.right with
          | none =>
              rw [split_some_none_eq h hp hl hlp hr]
              exact inv_detachPair h hinv hp (show n.child .l = some l from hl)
          | some r =>
              have hrp : r ≠ p := fun he => hinv.2.1 p n .r hp (by
                show n.right = some p
                rw [hr, he])
              rw [split_some_some_eq h hp hl hlp hr]
              have hinv1 := inv_detachPair h hinv hp (show n.child .l = some l from hl)
              have hp2 : detachPair h p .l l p = some (n.setChild .l none) :=
                detachPair_at_p h hp .l hlp
              exact inv_detachPair (detachPair h p .l l) hinv1 hp2
                (show (n.setChild .l none).child .r = some r from hr)

theorem inv_of_detached (h : Heap T) (hd : AllDetached h) : Inv h := by
  refine ⟨⟨?_, ?_⟩, ?_, ?_⟩
  · intro p n c hp hor
    obtain ⟨h1, h2, h3⟩ := hd p n hp
    rcases hor with ho | ho
    · rw [h1] at ho
      cases ho
    · rw [h2] at ho
      cases ho
  · intro c m p hc hm
    rw [(hd c m hc).2.2] at hm
    cases hm
  · intro p n s hp
    obtain ⟨h1, h2, h3⟩ := hd p n hp
    cases s
    · show n.left ≠ some p
      rw [h1]
      exact fun he => by cases he
    · show n.right ≠ some p
      rw [h2]
      exact fun he => by cases he
  · intro p n s c hp hcs
    obtain ⟨h1, h2, h3⟩ := hd p n hp
    cases s
    · rw [show n.child .l = n.left from rfl, h1] at hcs
      cases hcs
    · rw [show n.child .r = n.right from rfl, h2] at hcs
      cases hcs

theorem inv_runOps (h : Heap T) (ops : List (Op T)) (hinv : Inv h) (hok : okTrace h ops) :
    Inv (runOps h ops) := by
  induction ops generalizing h with
  | nil => exact hinv
  | cons op ops ih => exact ih _ (inv_applyOp h op hinv hok.1) hok.2

/-!
Operation-level specifications used by the functional-correctness claims.
-/

theorem clearParent_idem (n : Node T) : clearParent (clearParent n) = clearParent n := rfl

theorem replace_swap_spec (h : Heap T) {p c d : Nat} {n mc m : Node T} (s : Side)
    (hp : h p = some n) (hc : n.child s = some c) (hmc : h c = some mc)
    (hd : h d = some m) (hdp : d ≠ p) (hdc : d ≠ c) (hcp : c ≠ p) :
    (replace_child_helper h p s (some d)).2 = some c ∧
    (replace_child_helper h p s (some d)).1 c = some (clearParent mc) ∧
    (replace_child_helper h p s (some d)).1 d = some (withParent p m) ∧
    (replace_child_helper h p s (some d)).1 p = some (n.setChild s (some d)) := by
  have e := replace_some_some_eq h d hp hc
  have e1 : (replace_child_helper h p s (some d)).1 = attachPair (detachPair h p s c) p s d := by
    rw [e]
  have e2 : (replace_child_helper h p s (some d)).2 = some c := by rw [e]
  refine ⟨e2, ?_, ?_, ?_⟩
  · rw [e1, attachPair_at_other _ p s d hcp (Ne.symm hdc), detachPair_at_c h p s hcp, hmc,
      Option.map_some']
  · rw [e1, attachPair_at_c _ p s hdp, detachPair_at_other h p s c hdp hdc, hd, Option.map_some']
  · have h1 : detachPair h p s c p = some (n.setChild s none) := detachPair_at_p h hp s hcp
    rw [e1, attachPair_at_p _ h1 s hdp, setChild_setChild]

theorem replace_detach_spec (h : Heap T) {p c : Nat} {n mc : Node T} (s : Side)
    (hp : h p = some n) (hc : n.child s = some c) (hmc : h c = some mc) (hcp : c ≠ p) :
    (replace_child_helper h p s none).2 = some c ∧
    (replace_child_helper h p s none).1 p = some (n.setChild s none) ∧
    (replace_child_helper h p s none).1 c = some (clearParent mc) := by
  have e := replace_some_none_eq h hp hc hcp
  have e1 : (replace_child_helper h p s none).1 = detachPair h p s c := by rw [e]
  have e2 : (replace_child_helper h p s none).2 = some c := by rw [e]
  refine ⟨e2, ?_, ?_⟩
  · rw [e1]
    exact detachPair_at_p h hp s hcp
  · rw [e1, detachPair_at_c h p s hcp, hmc, Option.map_some']

theorem replace_frame_spec (h : Heap T) {p : Nat} {n : Node T} (s : Side) (nc : Option Nat)
    (hp : h p = some n) (hncp : ∀ d, nc = some d → d ≠ p) (hocp : n.child s ≠ some p) :
    (∃ n', (replace_child_helper h p s nc).1 p = some n' ∧ n'.data = n.data ∧
      n'.parent = n.parent ∧ n'.child s.other = n.child s.other) ∧
    (∀ j, j ≠ p → n.child s ≠ some j → nc ≠ some j →
      (replace_child_helper h p s nc).1 j = h j) ∧
    (∀ c mc, n.child s = some c → h c = some mc →
      ∃ mc', (replace_child_helper h p s nc).1 c = some mc' ∧ mc'.data = mc.data ∧
        mc'.left = mc.left ∧ mc'.right = mc.right) ∧
    (∀ d m, nc = some d → h d = some m →
      ∃ m', (replace_child_helper h p s nc).1 d = some m' ∧ m'.data = m.data ∧
        m'.left = m.left ∧ m'.right = m.right) := by
  cases nc with
  | none =>
      cases hco : n.child s with
      | none =>
          have e := replace_none_none_eq h hp hco
          have e1 : (replace_child_helper h p s none).1 = h := by rw [e]
          rw [e1]
          refine ⟨⟨n, hp, rfl, rfl, rfl⟩, fun j _ _ _ => rfl, ?_, ?_⟩
          · intro c mc hcs
            cases hcs
          · intro d m hd
            cases hd
      | some co =>
          have hcop : co ≠ p := fun he => hocp (by rw [hco, he])
          have e := replace_some_none_eq h hp hco hcop
          have e1 : (replace_child_helper h p s none).1 = detachPair h p s co := by rw [e]
          rw [e1]
          refine ⟨⟨n.setChild s none, detachPair_at_p h hp s hcop, by simp, by simp, by simp⟩,
            ?_, ?_, ?_⟩
          · intro j hjp hjc _
            have hjco : j ≠ co := fun he => hjc (by rw [he])
            exact detachPair_at_other h p s co hjp hjco
          · intro c mc hcs hmc
            cases hcs
            refine ⟨clearParent mc, ?_, by simp, by simp, by simp⟩
            rw [detachPair_at_c h p s hcop, hmc, Option.map_some']
          · intro d m hd
            cases hd
  | some d =>
      have hdp : d ≠ p := hncp d rfl
      cases hco : n.child s with
      | none =>
          have e := replace_none_some_eq h d hp hco
          have e1 : (replace_child_helper h p s (some d)).1 = attachPair h p s d := by rw [e]
          rw [e1]
          refine ⟨⟨n.setChild s (some d), attachPair_at_p h hp s hdp, by simp, by simp, by simp⟩,
            ?_, ?_, ?_⟩
          · intro j hjp _ hjd
            have hjd' : j ≠ d := fun he => hjd (by rw [he])
            exact attachPair_at_other h p s d hjp hjd'
          · intro c mc hcs
            cases hcs
          · intro d0 m hd0 hm
            obtain rfl : d0 = d := (Option.some_injective _ hd0).symm
            refine ⟨withParent p m, ?_, by simp, by simp, by simp⟩
            rw [attachPair_at_c h p s hdp, hm, Option.map_some']
      | some co =>
          have hcop : co ≠ p := fun he => hocp (by rw [hco, he])
          have e := replace_some_some_eq h d hp hco
          have e1 : (replace_child_helper h p s (some d)).1
              = attachPair (detachPair h p s co) p s d := by rw [e]
          rw [e1]
          have hpnode : detachPair h p s co p = some (n.setChild s none) :=
            detachPair_at_p h hp s hcop
          refine ⟨⟨(n.setChild s none).setChild s (some d), attachPair_at_p _ hpnode s hdp,
            by simp, by simp, by simp⟩, ?_, ?_, ?_⟩
          · intro j hjp hjc hjd
            have hjco : j ≠ co := fun he => hjc (by rw [he])
            have hjd' : j ≠ d := fun he => hjd (by rw [he])
            rw [attachPair_at_other _ p s d hjp hjd', detachPair_at_other h p s co hjp hjco]
          · intro c mc hcs hmc
            obtain rfl : c = co := (Option.some_injective _ hcs).symm
            by_cases hcd : c = d
            · subst hcd
              refine ⟨withParent p (clearParent mc), ?_, by simp, by simp, by simp⟩
              rw [attachPair_at_c _ p s hdp, detachPair_at_c h p s hcop, hmc]
              rfl
            · refine ⟨clearParent mc, ?_, by simp, by simp, by simp⟩
              rw [attachPair_at_other _ p s d hcop (fun he => hcd he),
                detachPair_at_c h p s hcop, hmc, Option.map_some']
          · intro d0 m hd0 hm
            obtain rfl : d0 = d := (Option.some_injective _ hd0).symm
            by_cases hdco : d0 = co
            · subst hdco
              refine ⟨withParent p (clearParent m), ?_, by simp, by simp, by simp⟩
              rw [attachPair_at_c _ p s hdp, detachPair_at_c h p s hcop, hm]
              rfl
            · refine ⟨withParent p m, ?_, by simp, by simp, by simp⟩
              rw [attachPair_at_c _ p s hdp, detachPair_at_other h p s co hdp hdco, hm,
                Option.map_some']

theorem split_spec_two (h : Heap T) {i l r : Nat} {n : Node T}
    (hp : h i = some n) (hl : n.left = some l) (hr : n.right = some r)
    (hli : l ≠ i) (hri : r ≠ i) (hlr : l ≠ r) :
    (split_mut h i).2 = (some l, i, some r) ∧
    (split_mut h i).1 i
      = some { data := n.data, left := none, right := none, parent := n.parent } ∧
    (split_mut h i).1 l = (h l).map clearParent ∧
    (split_mut h i).1 r = (h r).map clearParent ∧
    (∀ j, j ≠ i → j ≠ l → j ≠ r → (split_mut h i).1 j = h j) := by
  have e := split_some_some_eq h hp hl hli hr
  have e1 : (split_mut h i).1 = detachPair (detachPair h i .l l) i .r r := by rw [e]
  have e2 : (split_mut h i).2 = (some l, i, some r) := by rw [e]
  refine ⟨e2, ?_, ?_, ?_, ?_⟩
  · have h1 : detachPair h i .l l i = some (n.setChild .l none) := detachPair_at_p h hp .l hli
    rw [e1, detachPair_at_p _ h1 .r hri]
    rfl
  · rw [e1, detachPair_at_other _ i .r r hli hlr, detachPair_at_c h i .l hli]
  · rw [e1, detachPair_at_c _ i .r hri, detachPair_at_other h i .l l hri (Ne.symm hlr)]
  · intro j hj hjl hjr
    rw [e1, detachPair_at_other _ i .r r hj hjr, detachPair_at_other h i .l l hj hjl]

theorem split_child_spec_l (h : Heap T) {i l : Nat} {n ml : Node T}
    (hp : h i = some n) (hl : n.left = some l) (hli : l ≠ i) (hml : h l = some ml) :
    (split_mut h i).2.2.1 = i ∧ (split_mut h i).2.1 = some l ∧
    (split_mut h i).1 l = some (clearParent ml) := by
  cases hr : n.right with
  | none =>
      have e := split_some_none_eq h hp hl hli hr
      have e1 : (split_mut h i).1 = detachPair h i .l l := by rw [e]
      refine ⟨by rw [e], by rw [e], ?_⟩
      rw [e1, detachPair_at_c h i .l hli, hml, Option.map_some']
  | some r =>
      have e := split_some_some_eq h hp hl hli hr
      have e1 : (split_mut h i).1 = detachPair (detachPair h i .l l) i .r r := by rw [e]
      refine ⟨by rw [e], by rw [e], ?_⟩
      by_cases hlr : l = r
      · subst hlr
        rw [e1, detachPair_at_c _ i .r hli, detachPair_at_c h i .l hli, hml]
        rfl
      · rw [e1, detachPair_at_other _ i .r r hli hlr, detachPair_at_c h i .l hli, hml,
          Option.map_some']

theorem split_child_spec_r (h : Heap T) {i r : Nat} {n mr : Node T}
    (hp : h i = some n) (hr : n.right = some r) (hri : r ≠ i) (hmr : h r = some mr)
    (hlself : n.left ≠ some i) :
    (split_mut h i).2.2.1 = i ∧ (split_mut h i).2.2.2 = some r ∧
    (split_mut h i).1 r = some (clearParent mr) := by
  cases hl : n.left with
  | none =>
      have e := split_none_some_eq h hp hl hr
      have e1 : (split_mut h i).1 = detachPair h i .r r := by rw [e]
      refine ⟨by rw [e], by rw [e], ?_⟩
      rw [e1, detachPair_at_c h i .r hri, hmr, Option.map_some']
  | some l =>
      have hli : l ≠ i := fun he => hlself (by rw [hl, he])
      have e := split_some_some_eq h hp hl hli hr
      have e1 : (split_mut h i).1 = detachPair (detachPair h i .l l) i .r r := by rw [e]
      refine ⟨by rw [e], by rw [e], ?_⟩
      by_cases hrl : r = l
      · subst hrl
        rw [e1, detachPair_at_c _ i .r hri, detachPair_at_c h i .l hri, hmr]
        rfl
      · rw [e1, detachPair_at_c _ i .r hri, detachPair_at_other h i .l l hri hrl, hmr,
          Option.map_some']

theorem split_parent_frame (h : Heap T) {i : Nat} {n : Node T} (hp : h i = some n)
    (hlself : n.left ≠ some i) (hrself : n.right ≠ some i) :
    (∃ n', (split_mut h i).1 i = some n' ∧ n'.parent = n.parent ∧ n'.data = n.data) ∧
    (∀ q, q ≠ i → n.left ≠ some q → n.right ≠ some q → (split_mut h i).1 q = h q) := by
  cases hl : n.left with
  | none =>
      cases hr : n.right with
      | none =>
          have e := split_none_none_eq h hp hl hr
          have e1 : (split_mut h i).1 = h := by rw [e]
          rw [e1]
          exact ⟨⟨n, hp, rfl, rfl⟩, fun q _ _ _ => rfl⟩
      | some r =>
          have hri : r ≠ i := fun he => hrself (by rw [hr, he])
          have e := split_none_some_eq h hp hl hr
          have e1 : (split_mut h i).1 = detachPair h i .r r := by rw [e]
          rw [e1]
          refine ⟨⟨n.setChild .r none, detachPair_at_p h hp .r hri, by simp, by simp⟩, ?_⟩
          intro q hq _ hqr
          have hqr' : q ≠ r := fun he => hqr (by rw [he])
          exact detachPair_at_other h i .r r hq hqr'
  | some l =>
      have hli : l ≠ i := fun he => hlself (by rw [hl, he])
      cases hr : n.right with
      | none =>
          have e := split_some_none_eq h hp hl hli hr
          have e1 : (split_mut h i).1 = detachPair h i .l l := by rw [e]
          rw [e1]
          refine ⟨⟨n.setChild .l none, detachPair_at_p h hp .l hli, by simp, by simp⟩, ?_⟩
          intro q hq hql _
          have hql' : q ≠ l := fun he => hql (by rw [he])
          exact detachPair_at_other h i .l l hq hql'
      | some r =>
          have hri : r ≠ i := fun he => hrself (by rw [hr, he])
          have e := split_some_some_eq h hp hl hli hr
          have e1 : (split_mut h i).1 = detachPair (detachPair h i .l l) i .r r := by rw [e]
          rw [e1]
          have h1 : detachPair h i .l l i = some (n.setChild .l none) := detachPair_at_p h hp .l hli
          refine ⟨⟨(n.setChild .l none).setChild .r none, detachPair_at_p _ h1 .r hri,
            by simp, by simp⟩, ?_⟩
          intro q hq hql hqr
          have hql' : q ≠ l := fun he => hql (by rw [he])
          have hqr' : q ≠ r := fun he => hqr (by rw [he])
          rw [detachPair_at_other _ i .r r hq hqr', detachPair_at_other h i .l l hq hql']

/-!
Support lemmas for the concrete instantiations.
-/

theorem allDetached_emptyHeap : AllDetached (emptyHeap T) := fun _ _ hi => Option.noConfusion hi

theorem okTrace_buildOps : okTrace (emptyHeap Nat) buildOps :=
  ⟨rfl, rfl, rfl,
    ⟨⟨Node.new 10, rfl⟩, fun d hd => by
      cases hd
      exact ⟨by decide, Node.new 11, rfl, rfl⟩⟩,
    ⟨⟨_, rfl⟩, fun d hd => by
      cases hd
      exact ⟨by decide, Node.new 12, rfl, rfl⟩⟩,
    trivial⟩

theorem builtHeap_sym : Sym builtHeap :=
  (inv_runOps (emptyHeap Nat) buildOps (inv_of_detached _ allDetached_emptyHeap)
    okTrace_buildOps).1

/-!
The claims.
-/

/-- C1: for every tree built from freshly created detached nodes by any
sequence of `replace_left`/`replace_right`/`split_mut` calls (and fresh
allocations) that respects the caller obligations — a supplied new child
is a live node, is not linked upward, and is not the receiver — the
symmetry invariant I1 holds after every operation completes: every child
link is mirrored by a parent link and every parent link by a child link. -/
theorem claim_C1_symmetry_after_trace (h : Heap T) (ops : List (Op T))
    (hdet : AllDetached h) (hok : okTrace h ops) :
    Sym (runOps h ops) :=
  (inv_runOps h ops (inv_of_detached h hdet) hok).1

/-- Witness for C1: a concrete five-call trace from the empty heap. -/
theorem claim_C1_symmetry_after_trace_witness : Sym (runOps (emptyHeap Nat) buildOps) := by
  apply claim_C1_symmetry_after_trace
  · exact fun _ n hi => Option.noConfusion hi
  · exact ⟨rfl, rfl, rfl,
      ⟨⟨Node.new 10, rfl⟩, fun d hd => by
        cases hd
        exact ⟨by decide, Node.new 11, rfl, rfl⟩⟩,
      ⟨⟨_, rfl⟩, fun d hd => by
        cases hd
        exact ⟨by decide, Node.new 12, rfl, rfl⟩⟩,
      trivial⟩

/-- C2: on a node `i` with left child `l` and right child `r` (a genuine
symmetric tree position), `split_mut` returns exactly the triple
`(some l, i, some r)`, empties both of `i`'s child slots, clears the
parent links of `l` and `r` while leaving the rest of their records
untouched, and afterwards no link connects any of the three returned
pieces to either of the others. -/
theorem claim_C2_split_disjoint (h : Heap T) (i l r : Nat) (n ml mr : Node T)
    (hsym : Sym h) (hi : h i = some n)
    (hl : n.left = some l) (hr : n.right = some r)
    (hml : h l = some ml) (hmr : h r = some mr)
    (hli : l ≠ i) (hri : r ≠ i) (hlr : l ≠ r)
    (hmlL : ml.left ≠ some i) (hmlR : ml.right ≠ some i)
    (hmrL : mr.left ≠ some i) (hmrR : mr.right ≠ some i) :
    (split_mut h i).2 = (some l, i, some r) ∧
    (split_mut h i).1 i
      = some { data := n.data, left := none, right := none, parent := n.parent } ∧
    (split_mut h i).1 l = some (clearParent ml) ∧
    (split_mut h i).1 r = some (clearParent mr) ∧
    n.parent ≠ some l ∧ n.parent ≠ some r ∧
    ml.left ≠ some r ∧ ml.right ≠ some r ∧
    mr.left ≠ some l ∧ mr.right ≠ some l := by
  obtain ⟨e2, ei, el, er, _⟩ := split_spec_two h hi hl hr hli hri hlr
  have hmlp : ml.parent = some i := by
    obtain ⟨m', hm', hpar⟩ := Sym_fwd hsym hi (show n.child .l = some l from hl)
    rw [hml] at hm'
    cases hm'
    exact hpar
  have hmrp : mr.parent = some i := by
    obtain ⟨m', hm', hpar⟩ := Sym_fwd hsym hi (show n.child .r = some r from hr)
    rw [hmr] at hm'
    cases hm'
    exact hpar
  refine ⟨e2, ei, by rw [el, hml, Option.map_some'], by rw [er, hmr, Option.map_some'],
    ?_, ?_, ?_, ?_, ?_, ?_⟩
  · intro he
    obtain ⟨nq, s', hnq, hch⟩ := Sym_cnv hsym hi he
    rw [hml] at hnq
    cases hnq
    cases s'
    · exact hmlL hch
    · exact hmlR hch
  · intro he
    obtain ⟨nq, s', hnq, hch⟩ := Sym_cnv hsym hi he
    rw [hmr] at hnq
    cases hnq
    cases s'
    · exact hmrL hch
    · exact hmrR hch
  · intro he
    obtain ⟨m', hm', hpar⟩ := Sym_fwd hsym hml (show ml.child .l = some r from he)
    rw [hmr] at hm'
    cases hm'
    rw [hmrp] at hpar
    exact hli (Option.some_injective _ hpar.symm)
  · intro he
    obtain ⟨m', hm', hpar⟩ := Sym_fwd hsym hml (show ml.child .r = some r from he)
    rw [hmr] at hm'
    cases hm'
    rw [hmrp] at hpar
    exact hli (Option.some_injective _ hpar.symm)
  · intro he
    obtain ⟨m', hm', hpar⟩ := Sym_fwd hsym hmr (show mr.child .l = some l from he)
    rw [hml] at hm'
    cases hm'
    rw [hmlp] at hpar
    exact hri (Option.some_injective _ hpar.symm)
  · intro he
    obtain ⟨m', hm', hpar⟩ := Sym_fwd hsym hmr (show mr.child .r = some l from he)
    rw [hml] at hm'
    cases hm'
    rw [hmlp] at hpar
    exact hri (Option.some_injective _ hpar.symm)

/-- Witness for C2: splitting the root of the concrete three-node tree. -/
theorem claim_C2_split_disjoint_witness :
    (split_mut builtHeap 0).2 = (some 1, 0, some 2) ∧
    (split_mut builtHeap 0).1 0
      = some { data := 10, left := none, right := none, parent := none } ∧
    (split_mut builtHeap 0).1 1
      = some (clearParent { data := 11, left := none, right := none, parent := some 0 }) ∧
    (split_mut builtHeap 0).1 2
      = some (clearParent { data := 12, left := none, right := none, parent := some 0 }) ∧
    (none : Option Nat) ≠ some 1 ∧ (none : Option Nat) ≠ some 2 ∧
    (none : Option Nat) ≠ some 2 ∧ (none : Option Nat) ≠ some 2 ∧
    (none : Option Nat) ≠ some 1 ∧ (none : Option Nat) ≠ some 1 :=
  claim_C2_split_disjoint builtHeap 0 1 2
    { data := 10, left := some 1, right := some 2, parent := none }
    { data := 11, left := none, right := none, parent := some 0 }
    { data := 12, left := none, right := none, parent := some 0 }
    builtHeap_sym rfl rfl rfl rfl rfl
    (by decide) (by decide) (by decide) (by decide) (by decide) (by decide) (by decide)

/-- C3: `replace_right (some d)` on a node `p` whose right child is `c`
returns `c`, clears `c`'s parent link, sets `d`'s parent link to `p`, and
points `p`'s right slot at `d`; the mirrored statement holds for
`replace_left` and the left slot. -/
theorem claim_C3_swap_correct :
    (∀ (h : Heap T) (p c d : Nat) (n mc m : Node T), h p = some n → n.right = some c →
      h c = some mc → h d = some m → m.parent = none → d ≠ p → d ≠ c → c ≠ p →
      (replace_right h p (some d)).2 = some c ∧
      (replace_right h p (some d)).1 c = some (clearParent mc) ∧
      (replace_right h p (some d)).1 d = some (withParent p m) ∧
      (replace_right h p (some d)).1 p = some { n with right := some d }) ∧
    (∀ (h : Heap T) (p c d : Nat) (n mc m : Node T), h p = some n → n.left = some c →
      h c = some mc → h d = some m → m.parent = none → d ≠ p → d ≠ c → c ≠ p →
      (replace_left h p (some d)).2 = some c ∧
      (replace_left h p (some d)).1 c = some (clearParent mc) ∧
      (replace_left h p (some d)).1 d = some (withParent p m) ∧
      (replace_left h p (some d)).1 p = some { n with left := some d }) := by
  constructor
  · intro h p c d n mc m hp hc hmc hd _ hdp hdc hcp
    exact replace_swap_spec h .r hp hc hmc hd hdp hdc hcp
  · intro h p c d n mc m hp hc hmc hd _ hdp hdc hcp
    exact replace_swap_spec h .l hp hc hmc hd hdp hdc hcp

/-- Witness for C3: swapping in node 2 for right child 1, and node 4 for
left child 3, of node 0 of the concrete five-node heap. -/
theorem claim_C3_swap_correct_witness :
    ((replace_right cHeapA 0 (some 2)).2 = some 1 ∧
      (replace_right cHeapA 0 (some 2)).1 1
        = some { data := 1, left := none, right := none, parent := none } ∧
      (replace_right cHeapA 0 (some 2)).1 2
        = some { data := 2, left := none, right := none, parent := some 0 } ∧
      (replace_right cHeapA 0 (some 2)).1 0
        = some { data := 0, left := some 3, right := some 2, parent := none }) ∧
    ((replace_left cHeapA 0 (some 4)).2 = some 3 ∧
      (replace_left cHeapA 0 (some 4)).1 3
        = some { data := 3, left := none, right := none, parent := none } ∧
      (replace_left cHeapA 0 (some 4)).1 4
        = some { data := 4, left := none, right := none, parent := some 0 } ∧
      (replace_left cHeapA 0 (some 4)).1 0
        = some { data := 0, left := some 4, right := some 1, parent := none }) :=
  ⟨claim_C3_swap_correct.1 cHeapA 0 1 2
      { data := 0, left := some 3, right := some 1, parent := none }
      { data := 1, left := none, right := none, parent := some 0 }
      { data := 2, left := none, right := none, parent := none }
      rfl rfl rfl rfl rfl (by decide) (by decide) (by decide),
    claim_C3_swap_correct.2 cHeapA 0 3 4
      { data := 0, left := some 3, right := some 1, parent := none }
      { data := 3, left := none, right := none, parent := some 0 }
      { data := 4, left := none, right := none, parent := none }
      rfl rfl rfl rfl rfl (by decide) (by decide) (by decide)⟩

/-- C4: `replace_left none` on a node with left child `c` empties the left
slot, clears `c`'s parent link and returns `c`; on a node whose left slot
is already empty it returns nothing and changes nothing.  The mirrored
statement holds for `replace_right` and the right slot. -/
theorem claim_C4_detach_correct :
    (∀ (h : Heap T) (p c : Nat) (n mc : Node T), h p = some n → n.left = some c →
      h c = some mc → c ≠ p →
      (replace_left h p none).2 = some c ∧
      (replace_left h p none).1 p = some { n with left := none } ∧
      (replace_left h p none).1 c = some (clearParent mc)) ∧
    (∀ (h : Heap T) (p : Nat) (n : Node T), h p = some n → n.left = none →
      replace_left h p none = (h, none)) ∧
    (∀ (h : Heap T) (p c : Nat) (n mc : Node T), h p = some n → n.right = some c →
      h c = some mc → c ≠ p →
      (replace_right h p none).2 = some c ∧
      (replace_right h p none).1 p = some { n with right := none } ∧
      (replace_right h p none).1 c = some (clearParent mc)) ∧
    (∀ (h : Heap T) (p : Nat) (n : Node T), h p = some n → n.right = none →
      replace_right h p none = (h, none)) := by
  refine ⟨?_, ?_, ?_, ?_⟩
  · intro h p c n mc hp hc hmc hcp
    obtain ⟨a, b, c'⟩ := replace_detach_spec h .l hp hc hmc hcp
    exact ⟨a, b, c'⟩
  · intro h p n hp hc
    exact replace_none_none_eq h hp hc
  · intro h p c n mc hp hc hmc hcp
    obtain ⟨a, b, c'⟩ := replace_detach_spec h .r hp hc hmc hcp
    exact ⟨a, b, c'⟩
  · intro h p n hp hc
    exact replace_none_none_eq h hp hc

/-- Witness for C4: detaching both children of node 0, and detaching from
the childless node 1, of the concrete five-node heap. -/
theorem claim_C4_detach_correct_witness :
    ((replace_left cHeapA 0 none).2 = some 3 ∧
      (replace_left cHeapA 0 none).1 0
        = some { data := 0, left := none, right := some 1, parent := none } ∧
      (replace_left cHeapA 0 none).1 3
        = some { data := 3, left := none, right := none, parent := none }) ∧
    replace_left cHeapA 1 none = (cHeapA, none) ∧
    ((replace_right cHeapA 0 none).2 = some 1 ∧
      (replace_right cHeapA 0 none).1 0
        = some { data := 0, left := some 3, right := none, parent := none } ∧
      (replace_right cHeapA 0 none).1 1
        = some { data := 1, left := none, right := none, parent := none }) ∧
    replace_right cHeapA 1 none = (cHeapA, none) :=
  ⟨claim_C4_detach_correct.1 cHeapA 0 3
      { data := 0, left := some 3, right := some 1, parent := none }
      { data := 3, left := none, right := none, parent := some 0 } rfl rfl rfl (by decide),
    claim_C4_detach_correct.2.1 cHeapA 1
      { data := 1, left := none, right := none, parent := some 0 } rfl rfl,
    claim_C4_detach_correct.2.2.1 cHeapA 0 1
      { data := 0, left := some 3, right := some 1, parent := none }
      { data := 1, left := none, right := none, parent := some 0 } rfl rfl rfl (by decide),
    claim_C4_detach_correct.2.2.2 cHeapA 1
      { data := 1, left := none, right := none, parent := some 0 } rfl rfl⟩

/-- C5: a `replace_left` or `replace_right` call touches only the two link
fields involved: the receiver keeps its payload, its parent link and its
other child slot; the old occupant and the supplied new child keep their
payloads and both child slots; and every node other than these three is
completely unchanged. -/
theorem claim_C5_frame :
    (∀ (h : Heap T) (p : Nat) (n : Node T) (nc : Option Nat), h p = some n →
      (∀ d, nc = some d → d ≠ p) → n.left ≠ some p →
      (∃ n', (replace_left h p nc).1 p = some n' ∧ n'.data = n.data ∧
        n'.parent = n.parent ∧ n'.right = n.right) ∧
      (∀ j, j ≠ p → n.left ≠ some j → nc ≠ some j → (replace_left h p nc).1 j = h j) ∧
      (∀ c mc, n.left = some c → h c = some mc →
        ∃ mc', (replace_left h p nc).1 c = some mc' ∧ mc'.data = mc.data ∧
          mc'.left = mc.left ∧ mc'.right = mc.right) ∧
      (∀ d m, nc = some d → h d = some m →
        ∃ m', (replace_left h p nc).1 d = some m' ∧ m'.data = m.data ∧
          m'.left = m.left ∧ m'.right = m.right)) ∧
    (∀ (h : Heap T) (p : Nat) (n : Node T) (nc : Option Nat), h p = some n →
      (∀ d, nc = some d → d ≠ p) → n.right ≠ some p →
      (∃ n', (replace_right h p nc).1 p = some n' ∧ n'.data = n.data ∧
        n'.parent = n.parent ∧ n'.left = n.left) ∧
      (∀ j, j ≠ p → n.right ≠ some j → nc ≠ some j → (replace_right h p nc).1 j = h j) ∧
      (∀ c mc, n.right = some c → h c = some mc →
        ∃ mc', (replace_right h p nc).1 c = some mc' ∧ mc'.data = mc.data ∧
          mc'.left = mc.left ∧ mc'.right = mc.right) ∧
      (∀ d m, nc = some d → h d = some m →
        ∃ m', (replace_right h p nc).1 d = some m' ∧ m'.data = m.data ∧
          m'.left = m.left ∧ m'.right = m.right)) := by
  constructor
  · intro h p n nc hp hncp hocp
    exact replace_frame_spec h .l nc hp hncp hocp
  · intro h p n nc hp hncp hocp
    exact replace_frame_spec h .r nc hp hncp hocp

/-- Witness for C5: a bystander node (address 7, not allocated, and also
the allocated bystander 4) is untouched by both calls on the concrete
five-node heap. -/
theorem claim_C5_frame_witness :
    (replace_left cHeapA 0 (some 2)).1 7 = cHeapA 7 ∧
    (replace_left cHeapA 0 (some 2)).1 4 = cHeapA 4 ∧
    (replace_right cHeapA 0 (some 2)).1 7 = cHeapA 7 ∧
    (replace_right cHeapA 0 (some 2)).1 4 = cHeapA 4 :=
  ⟨(claim_C5_frame.1 cHeapA 0 { data := 0, left := some 3, right := some 1, parent := none }
      (some 2) rfl (fun d hd => by cases hd; decide) (by decide)).2.1 7
      (by decide) (by decide) (by decide),
    (claim_C5_frame.1 cHeapA 0 { data := 0, left := some 3, right := some 1, parent := none }
      (some 2) rfl (fun d hd => by cases hd; decide) (by decide)).2.1 4
      (by decide) (by decide) (by decide),
    (claim_C5_frame.2 cHeapA 0 { data := 0, left := some 3, right := some 1, parent := none }
      (some 2) rfl (fun d hd => by cases hd; decide) (by decide)).2.1 7
      (by decide) (by decide) (by decide),
    (claim_C5_frame.2 cHeapA 0 { data := 0, left := some 3, right := some 1, parent := none }
      (some 2) rfl (fun d hd => by cases hd; decide) (by decide)).2.1 4
      (by decide) (by decide) (by decide)⟩

/-- C6: `new v` is a detached node (all three links empty) whose payload
read through `get` is `v`; on such a node every navigation accessor
returns nothing; and in general each accessor returns exactly the stored
link of the node. -/
theorem claim_C6_new_and_accessors (v : T) (h : Heap T) (i : Nat) (n : Node T)
    (hn : h i = some n) :
    (Node.new v).left = none ∧ (Node.new v).right = none ∧ (Node.new v).parent = none ∧
    (Node.new v).get = v ∧
    left h i = n.left ∧ right h i = n.right ∧ parent h i = n.parent ∧
    (n = Node.new v → left h i = none ∧ right h i = none ∧ parent h i = none) := by
  have hL : left h i = n.left := by
    show (h i).bind Node.left = n.left
    rw [hn]
    rfl
  have hR : right h i = n.right := by
    show (h i).bind Node.right = n.right
    rw [hn]
    rfl
  have hP : parent h i = n.parent := by
    show (h i).bind Node.parent = n.parent
    rw [hn]
    rfl
  refine ⟨rfl, rfl, rfl, rfl, hL, hR, hP, ?_⟩
  intro he
  subst he
  exact ⟨hL, hR, hP⟩

/-- Witness for C6 at the detached node 2 of the concrete five-node heap. -/
theorem claim_C6_new_and_accessors_witness :
    (Node.new 2).left = none ∧ (Node.new 2).right = none ∧ (Node.new 2).parent = none ∧
    (Node.new 2).get = 2 ∧
    left cHeapA 2 = none ∧ right cHeapA 2 = none ∧ parent cHeapA 2 = none ∧
    (Node.new 2 = Node.new 2 → left cHeapA 2 = none ∧ right cHeapA 2 = none ∧
      parent cHeapA 2 = none) :=
  claim_C6_new_and_accessors 2 cHeapA 2 (Node.new 2) rfl

/-- C7: the end-to-end `walk_around` scenario: after building the five-node
tree with the four replace calls, navigating left from node 2 reaches the
node with payload "0"; after writing "10" into that payload, its left is
empty, its right is node "1", node "1"'s parent is the rewritten node, and
from its parent (node "2") two right steps reach node "4". -/
theorem claim_C7_walk_around :
    left_mut walkHeap4 2 = some 0 ∧
    (walkHeap4 0).map Node.get = some "0" ∧
    (walkHeap5 0).map Node.get = some "10" ∧
    left walkHeap5 0 = none ∧
    right_mut walkHeap5 0 = some 1 ∧
    (walkHeap5 1).map Node.get = some "1" ∧
    parent_mut walkHeap5 1 = some 0 ∧
    parent_mut walkHeap5 0 = some 2 ∧
    right_mut walkHeap5 2 = some 3 ∧
    right_mut walkHeap5 3 = some 4 ∧
    (walkHeap5 4).map Node.get = some "4" := by
  refine ⟨rfl, rfl, rfl, rfl, rfl, rfl, rfl, rfl, rfl, rfl, rfl⟩

/-- C8: detaching a child preserves its subtree: the occupant removed by a
`replace_child_helper` call (either slot, any argument other than the
occupant itself) and each child removed by `split_mut` keep their payload
and both of their own child links — only their parent link is cleared —
and they are the values returned. -/
theorem claim_C8_detach_preserves_subtree :
    (∀ (h : Heap T) (p : Nat) (s : Side) (nc : Option Nat) (c : Nat) (n mc : Node T),
      h p = some n → n.child s = some c → h c = some mc → c ≠ p → nc ≠ some c →
      (replace_child_helper h p s nc).2 = some c ∧
      (replace_child_helper h p s nc).1 c = some (clearParent mc)) ∧
    (∀ (h : Heap T) (i l : Nat) (n ml : Node T), h i = some n → n.left = some l →
      l ≠ i → h l = some ml →
      (split_mut h i).2.1 = some l ∧ (split_mut h i).1 l = some (clearParent ml)) ∧
    (∀ (h : Heap T) (i r : Nat) (n mr : Node T), h i = some n → n.right = some r →
      r ≠ i → h r = some mr → n.left ≠ some i →
      (split_mut h i).2.2.2 = some r ∧ (split_mut h i).1 r = some (clearParent mr)) := by
  refine ⟨?_, ?_, ?_⟩
  · intro h p s nc c n mc hp hc hmc hcp hnc
    cases nc with
    | none =>
        obtain ⟨a, _, b⟩ := replace_detach_spec h s hp hc hmc hcp
        exact ⟨a, b⟩
    | some d =>
        have hcd : c ≠ d := fun he => hnc (by rw [he])
        have e := replace_some_some_eq h d hp hc
        have e1 : (replace_child_helper h p s (some d)).1
            = attachPair (detachPair h p s c) p s d := by rw [e]
        have e2 : (replace_child_helper h p s (some d)).2 = some c := by rw [e]
        refine ⟨e2, ?_⟩
        rw [e1, attachPair_at_other _ p s d hcp hcd, detachPair_at_c h p s hcp, hmc,
          Option.map_some']
  · intro h i l n ml hp hl hli hml
    obtain ⟨_, a, b⟩ := split_child_spec_l h hp hl hli hml
    exact ⟨a, b⟩
  · intro h i r n mr hp hr hri hmr hlself
    obtain ⟨_, a, b⟩ := split_child_spec_r h hp hr hri hmr hlself
    exact ⟨a, b⟩

/-- Witness for C8: replacing the right child of node 0 of the concrete
five-node heap, and splitting node 0. -/
theorem claim_C8_detach_preserves_subtree_witness :
    ((replace_child_helper cHeapA 0 .r (some 2)).2 = some 1 ∧
      (replace_child_helper cHeapA 0 .r (some 2)).1 1
        = some { data := 1, left := none, right := none, parent := none }) ∧
    ((split_mut cHeapA 0).2.1 = some 3 ∧
      (split_mut cHeapA 0).1 3
        = some { data := 3, left := none, right := none, parent := none }) ∧
    ((split_mut cHeapA 0).2.2.2 = some 1 ∧
      (split_mut cHeapA 0).1 1
        = some { data := 1, left := none, right := none, parent := none }) :=
  ⟨claim_C8_detach_preserves_subtree.1 cHeapA 0 .r (some 2) 1
      { data := 0, left := some 3, right := some 1, parent := none }
      { data := 1, left := none, right := none, parent := some 0 }
      rfl rfl rfl (by decide) (by decide),
    claim_C8_detach_preserves_subtree.2.1 cHeapA 0 3
      { data := 0, left := some 3, right := some 1, parent := none }
      { data := 3, left := none, right := none, parent := some 0 }
      rfl rfl (by decide) rfl,
    claim_C8_detach_preserves_subtree.2.2 cHeapA 0 1
      { data := 0, left := some 3, right := some 1, parent := none }
      { data := 1, left := none, right := none, parent := some 0 }
      rfl rfl (by decide) rfl (by decide)⟩

/-- C9: `split_mut` never modifies the node's own parent link (and its
payload); every node other than the receiver and its two children is
untouched; and on a childless node the call returns `(none, the node,
none)` leaving the whole heap exactly as it was. -/
theorem claim_C9_split_parent_untouched (h : Heap T) (i : Nat) (n : Node T)
    (hp : h i = some n) (hlself : n.left ≠ some i) (hrself : n.right ≠ some i) :
    (∃ n', (split_mut h i).1 i = some n' ∧ n'.parent = n.parent ∧ n'.data = n.data) ∧
    (∀ q, q ≠ i → n.left ≠ some q → n.right ≠ some q → (split_mut h i).1 q = h q) ∧
    (n.left = none → n.right = none → split_mut h i = (h, (none, i, none))) := by
  obtain ⟨a, b⟩ := split_parent_frame h hp hlself hrself
  exact ⟨a, b, fun hl hr => split_none_none_eq h hp hl hr⟩

/-- Witness for C9: splitting the childless node 1 of the concrete
five-node heap changes nothing. -/
theorem claim_C9_split_parent_untouched_witness :
    split_mut cHeapA 1 = (cHeapA, (none, 1, none)) :=
  (claim_C9_split_parent_untouched cHeapA 1
    { data := 1, left := none, right := none, parent := some 0 }
    rfl (by decide) (by decide)).2.2 rfl rfl

/-- C10: the two source files implement behaviourally identical versions
of every operation: on every input state each `base_tree` operation
returns the same result and the same heap as its counterpart. -/
theorem claim_C10_twin_equivalence :
    (∀ (v : T), Base.node_new v = Node.new v) ∧
    (∀ (n : Node T), Base.node_get n = Node.get n) ∧
    (∀ (h : Heap T) (i : Nat) (v : T), Base.write_data h i v = write_data h i v) ∧
    (∀ (h : Heap T) (i : Nat), Base.left h i = left h i) ∧
    (∀ (h : Heap T) (i : Nat), Base.right h i = right h i) ∧
    (∀ (h : Heap T) (i : Nat), Base.parent h i = parent h i) ∧
    (∀ (h : Heap T) (i : Nat), Base.left_mut h i = left_mut h i) ∧
    (∀ (h : Heap T) (i : Nat), Base.right_mut h i = right_mut h i) ∧
    (∀ (h : Heap T) (i : Nat), Base.parent_mut h i = parent_mut h i) ∧
    (∀ (h : Heap T) (p : Nat) (nc : Option Nat),
      Base.replace_left h p nc = replace_left h p nc) ∧
    (∀ (h : Heap T) (p : Nat) (nc : Option Nat),
      Base.replace_right h p nc = replace_right h p nc) ∧
    (∀ (h : Heap T) (p : Nat) (s : Side) (nc : Option Nat),
      Base.replace_child_helper h p s nc = replace_child_helper h p s nc) ∧
    (∀ (h : Heap T) (i : Nat), Base.split_mut h i = split_mut h i) :=
  ⟨fun _ => rfl, fun _ => rfl, fun _ _ _ => rfl, fun _ _ => rfl, fun _ _ => rfl,
    fun _ _ => rfl, fun _ _ => rfl, fun _ _ => rfl, fun _ _ => rfl, fun _ _ _ => rfl,
    fun _ _ _ => rfl, fun _ _ _ _ => rfl, fun _ _ => rfl⟩

end BinTree
